import Mathlib

/-!
# Mapmoments backend — formal model and verification

A shallow embedding of the core of src/backend/server.py: the document
store is a record of lists (one per collection), each route handler
becomes a pure function from the store (and the authenticated user
document) to a typed result.  Mongo operations are modelled as list
operations: find = filter, find_one = find first, update_one = update
first match, delete_one = delete first match, delete_many = filter out,
addToSet = append if absent, pull = remove all, to_list n = take n.
-/

namespace Mapmoments

/-- A document in the users collection (server.py User model plus the
is_guest flag stored by guest_login). -/
structure UserDoc where
  id : String
  username : String
  friends : List String
  friend_requests : List String
  is_guest : Bool
deriving DecidableEq, Repr

/-- A document in the pins collection (server.py Pin model).  Coordinates
are modelled as rationals, timestamps as ISO-8601 strings compared
lexicographically (as Mongo compares them). -/
structure PinDoc where
  id : String
  user_id : String
  username : String
  privacy : String
  likes : List String
  latitude : ℚ
  longitude : ℚ
  created_at : String
deriving DecidableEq, Repr

/-- A document in the media collection (server.py Media model). -/
structure MediaDoc where
  id : String
  pin_id : String
  user_id : String
  file_id : String
deriving DecidableEq, Repr

/-- A document in the messages collection (server.py Message model). -/
structure MessageDoc where
  id : String
  sender_id : String
  recipient_id : String
  content : String
  created_at : String
deriving DecidableEq, Repr

/-- The document store plus the GridFS blob store (blobs are tracked by
file id; content is irrelevant to the properties proved here). -/
structure DB where
  users : List UserDoc
  pins : List PinDoc
  media : List MediaDoc
  messages : List MessageDoc
  blobs : List String
deriving DecidableEq, Repr

/-- Typed failures raised via HTTPException in server.py:
404 = notFound, 403 = forbidden, 400 = badRequest, 401 = unauthorized. -/
inductive ApiError where
  | notFound
  | forbidden
  | badRequest
  | unauthorized
deriving DecidableEq, Repr

/-- Mongo `$addToSet`: append iff not already present. -/
def addToSet (l : List String) (x : String) : List String :=
  if l.contains x then l else l ++ [x]

/-- `GET /api/pins/{pin_id}` (server.py get_pin): find the pin, then the
two privacy checks, in source order. -/
def get_pin (db : DB) (viewer : UserDoc) (pin_id : String) :
    Except ApiError PinDoc :=
  match db.pins.find? (fun p => p.id == pin_id) with
  | none => .error .notFound
  | some pin =>
    if pin.privacy == "private" && pin.user_id != viewer.id then
      .error .forbidden
    else if pin.privacy == "friends" && pin.user_id != viewer.id
        && !(viewer.friends.contains pin.user_id) then
      .error .forbidden
    else
      .ok pin

/-- The feed query built by get_pins when no (truthy) privacy filter is
given: guests match only their own pins; others match public pins not
their own, or their own pins, or friends-tier pins whose owner is in the
viewer's friends list. -/
def feedQuery (viewer : UserDoc) (pin : PinDoc) : Bool :=
  if viewer.is_guest then
    pin.user_id == viewer.id
  else
    (pin.privacy == "public" && pin.user_id != viewer.id)
      || pin.user_id == viewer.id
      || (pin.privacy == "friends" && viewer.friends.contains pin.user_id)

/-- The filter used by get_pins: a truthy (non-None, non-empty) privacy
parameter matches on privacy alone; otherwise the feed query applies. -/
def pinsQuery (viewer : UserDoc) (privacy : Option String) (pin : PinDoc) :
    Bool :=
  match privacy with
  | some p => if p == "" then feedQuery viewer pin else pin.privacy == p
  | none => feedQuery viewer pin

/-- Descending created_at, the sort used by get_pins. -/
def createdDescLe (a b : PinDoc) : Bool :=
  decide (b.created_at ≤ a.created_at)

/-- `GET /api/pins` (server.py get_pins): filter, sort by created_at
descending, read at most 1000 documents from the cursor.  (The media
embedding loop only augments each returned record; it does not change
which pins are returned, so it is not modelled.) -/
def get_pins (db : DB) (viewer : UserDoc) (privacy : Option String) :
    List PinDoc :=
  (((db.pins.filter (pinsQuery viewer privacy)).mergeSort createdDescLe).take 1000)

/-- Python list toggle used by like_pin: remove the first occurrence if
present, else append. -/
def toggleLikes (likes : List String) (uid : String) : List String :=
  if likes.contains uid then likes.erase uid else likes ++ [uid]

/-- Mongo update_one with `$set likes`: rewrite the likes of the first
pin matching the id. -/
def setPinLikes : List PinDoc → String → List String → List PinDoc
  | [], _, _ => []
  | p :: rest, pid, likes =>
    if p.id == pid then { p with likes := likes } :: rest
    else p :: setPinLikes rest pid likes

/-- `POST /api/pins/{pin_id}/like` (server.py like_pin): toggle the
viewer's membership in the likes list and store it; returns the new
count and membership. -/
def like_pin (db : DB) (viewer : UserDoc) (pin_id : String) :
    Except ApiError (DB × Nat × Bool) :=
  match db.pins.find? (fun p => p.id == pin_id) with
  | none => .error .notFound
  | some pin =>
    let likes := toggleLikes pin.likes viewer.id
    .ok ({ db with pins := setPinLikes db.pins pin_id likes },
         likes.length, likes.contains viewer.id)

/-- Mongo delete_one on pins: remove the first pin matching the id. -/
def deleteOnePin : List PinDoc → String → List PinDoc
  | [], _ => []
  | p :: rest, pid =>
    if p.id == pid then rest else p :: deleteOnePin rest pid

/-- `DELETE /api/pins/{pin_id}` (server.py delete_pin).  `failing` is the
set of blob ids whose GridFS delete raises; the `try/except: pass`
swallows those failures, so a failing blob merely stays in the store.
Media rows are then removed with delete_many and the pin with
delete_one. -/
def delete_pin (db : DB) (viewer : UserDoc) (pin_id : String)
    (failing : List String) : Except ApiError DB :=
  match db.pins.find? (fun p => p.id == pin_id) with
  | none => .error .notFound
  | some pin =>
    if pin.user_id != viewer.id then .error .forbidden
    else
      let mediaItems := (db.media.filter (fun m => m.pin_id == pin_id)).take 1000
      .ok { db with
        blobs := db.blobs.filter
          (fun b => !(mediaItems.any (fun m => m.file_id == b)
                      && !(failing.contains b))),
        media := db.media.filter (fun m => m.pin_id != pin_id),
        pins := deleteOnePin db.pins pin_id }

/-- `GET /api/pins/{pin_id}/media` (server.py get_media): read at most
1000 media rows for the pin; rows whose GridFS read fails (blob absent)
are skipped by the `except: continue`. -/
def get_media (db : DB) (pin_id : String) : List MediaDoc :=
  ((db.media.filter (fun m => m.pin_id == pin_id)).take 1000).filter
    (fun m => db.blobs.contains m.file_id)

/-- Mongo update_one on users: apply `f` to the first user matching the
id. -/
def updateUserFirst : List UserDoc → String → (UserDoc → UserDoc) → List UserDoc
  | [], _, _ => []
  | u :: rest, uid, f =>
    if u.id == uid then f u :: rest else u :: updateUserFirst rest uid f

/-- The `$addToSet friend_requests` update of send_friend_request. -/
def addRequest (requester : String) (u : UserDoc) : UserDoc :=
  { u with friend_requests := addToSet u.friend_requests requester }

/-- The accepter-side update of accept_friend_request: `$addToSet
friends` plus `$pull friend_requests`. -/
def acceptUpd (requester_id : String) (u : UserDoc) : UserDoc :=
  { u with
    friends := addToSet u.friends requester_id,
    friend_requests := u.friend_requests.filter (fun r => r != requester_id) }

/-- The requester-side update of accept_friend_request: `$addToSet
friends`. -/
def friendAdd (x : String) (u : UserDoc) : UserDoc :=
  { u with friends := addToSet u.friends x }

/-- `POST /api/friends/request/{user_id}` (server.py send_friend_request),
given the authenticated viewer document. -/
def send_friend_request (db : DB) (viewer : UserDoc) (target_id : String) :
    Except ApiError DB :=
  if target_id == viewer.id then .error .badRequest
  else
    match db.users.find? (fun u => u.id == target_id) with
    | none => .error .notFound
    | some _ =>
      if viewer.friends.contains target_id then .error .badRequest
      else
        .ok { db with users := updateUserFirst db.users target_id (addRequest viewer.id) }

/-- `POST /api/friends/accept/{user_id}` (server.py accept_friend_request),
given the authenticated viewer document: add each side to the other's
friends ($addToSet) and pull the request, in source order (viewer's
document first, requester's second). -/
def accept_friend_request (db : DB) (viewer : UserDoc) (requester_id : String) :
    Except ApiError DB :=
  if !(viewer.friend_requests.contains requester_id) then .error .badRequest
  else
    let users1 := updateUserFirst db.users viewer.id (acceptUpd requester_id)
    .ok { db with users := updateUserFirst users1 requester_id (friendAdd viewer.id) }

/-- get_current_user (server.py): resolve the bearer token's user id to a
fresh user document, 401 if absent; then run send_friend_request. -/
def runSend (db : DB) (viewer_id target_id : String) : Except ApiError DB :=
  match db.users.find? (fun u => u.id == viewer_id) with
  | none => .error .unauthorized
  | some viewer => send_friend_request db viewer target_id

/-- get_current_user followed by accept_friend_request. -/
def runAccept (db : DB) (viewer_id requester_id : String) : Except ApiError DB :=
  match db.users.find? (fun u => u.id == viewer_id) with
  | none => .error .unauthorized
  | some viewer => accept_friend_request db viewer requester_id

/-- The trending sort key of server.py get_trending: like_count
descending, then created_at descending. -/
def trendingLe (a b : PinDoc) : Bool :=
  b.likes.length < a.likes.length
    || (b.likes.length == a.likes.length && decide (b.created_at ≤ a.created_at))

/-- `GET /api/discover/trending` (server.py get_trending): match
privacy=public, add like_count = size of likes, sort by (like_count
desc, created_at desc), limit 50. -/
def get_trending (db : DB) : List PinDoc :=
  (((db.pins.filter (fun p => p.privacy == "public")).mergeSort trendingLe).take 50)

/-- The planar distance of server.py get_nearby:
`sqrt(|Δlat|² + |Δlng|²) * 111` (rough km), computed over the reals. -/
noncomputable def pinDistance (qlat qlng : ℚ) (p : PinDoc) : ℝ :=
  Real.sqrt (|(p.latitude : ℝ) - (qlat : ℝ)| ^ 2
    + |(p.longitude : ℝ) - (qlng : ℝ)| ^ 2) * 111

/-- Python `round(x, 2)` idealised over the reals: round to the nearest
hundredth (tie behaviour differs from Python's banker's rounding only at
exact ties, which none of the stated properties exercise). -/
noncomputable def round2 (x : ℝ) : ℝ := (round (x * 100) : ℤ) / 100

/-- The accumulation loop of get_nearby: keep each pin whose (unrounded)
distance is within the radius, tagging it with the rounded distance it
reports. -/
noncomputable def nearbyLoop (qlat qlng : ℚ) (radius : ℝ) :
    List PinDoc → List (PinDoc × ℝ)
  | [] => []
  | p :: rest =>
    if pinDistance qlat qlng p ≤ radius then
      (p, round2 (pinDistance qlat qlng p)) :: nearbyLoop qlat qlng radius rest
    else
      nearbyLoop qlat qlng radius rest

/-- The sort key of get_nearby: ascending by the stored (rounded)
distance field. -/
noncomputable def nearbyLe (a b : PinDoc × ℝ) : Bool :=
  decide (a.2 ≤ b.2)

/-- `GET /api/discover/nearby` (server.py get_nearby): read at most 1000
public pins, keep those within the radius with their rounded distance,
sort ascending by the stored distance, return at most 50. -/
noncomputable def get_nearby (db : DB) (qlat qlng : ℚ) (radius : ℝ) :
    List (PinDoc × ℝ) :=
  ((nearbyLoop qlat qlng radius
      ((db.pins.filter (fun p => p.privacy == "public")).take 1000)).mergeSort
    nearbyLe).take 50

/-- Does the message involve the user, as the `$match` stage of
get_conversations tests. -/
def involvedB (uid : String) (m : MessageDoc) : Bool :=
  m.sender_id == uid || m.recipient_id == uid

/-- The `$cond` group key of get_conversations: the other participant. -/
def otherId (uid : String) (m : MessageDoc) : String :=
  if m.sender_id == uid then m.recipient_id else m.sender_id

/-- Descending created_at, the `$sort` stage of get_conversations. -/
def msgDescLe (a b : MessageDoc) : Bool :=
  decide (b.created_at ≤ a.created_at)

/-- The `$group` with `$first` stage: keep the first document of each
distinct key, in encounter order. -/
def groupFirst (key : MessageDoc → String) : List MessageDoc → List MessageDoc
  | [] => []
  | m :: rest =>
    m :: groupFirst key (rest.filter (fun m2 => key m2 != key m))
termination_by l => l.length
decreasing_by
  simp only [List.length_cons]
  exact Nat.lt_succ_of_le (rest.length_filter_le _)

/-- `GET /api/messages` (server.py get_conversations): match the user's
messages, sort by created_at descending, group by the other participant
keeping the first (latest) message per group, read at most 100
records. -/
def get_conversations (db : DB) (uid : String) : List MessageDoc :=
  (groupFirst (otherId uid)
    ((db.messages.filter (involvedB uid)).mergeSort msgDescLe)).take 100

/-! ## Test fixtures -/

def ownerA : UserDoc := ⟨"a", "alice", [], [], false⟩
def bobFriendOfA : UserDoc := ⟨"b", "bob", ["a"], [], false⟩
def carol : UserDoc := ⟨"c", "carol", [], [], false⟩
def guestG : UserDoc := ⟨"g", "guest", [], [], true⟩
def pinPriv : PinDoc := ⟨"p1", "a", "alice", "private", [], 0, 0, "2024-01-01T00:00:00"⟩
def pinFriends : PinDoc := ⟨"p2", "a", "alice", "friends", [], 0, 0, "2024-01-02T00:00:00"⟩
def pinPub : PinDoc := ⟨"p3", "a", "alice", "public", ["b"], 0, 0, "2024-01-03T00:00:00"⟩
def dbSmall : DB := ⟨[ownerA, bobFriendOfA, carol, guestG], [pinPriv, pinFriends, pinPub], [], [], []⟩

/-- An owner whose friends list names the viewer, while the viewer's own
friends list is empty: the asymmetric state get_pin actually tests. -/
def ownerAsym : UserDoc := ⟨"a", "alice", ["v"], [], false⟩
def viewerAsym : UserDoc := ⟨"v", "vera", [], [], false⟩
def dbAsym : DB := ⟨[ownerAsym, viewerAsym], [pinFriends], [], [], []⟩

/-! ## C1: private pins -/

/-- C1: for every pin with privacy "private", get_pin by any viewer whose
id differs from the pin's owner fails Forbidden, while the owner's own
get_pin succeeds and returns the pin. -/
theorem private_pin_access (db : DB) (viewer : UserDoc) (pin_id : String)
    (pin : PinDoc)
    (hfind : db.pins.find? (fun p => p.id == pin_id) = some pin)
    (hpriv : pin.privacy = "private") :
    (viewer.id ≠ pin.user_id → get_pin db viewer pin_id = .error .forbidden) ∧
    (viewer.id = pin.user_id → get_pin db viewer pin_id = .ok pin) := by
  simp only [get_pin, hfind]
  constructor
  · intro hne
    have hc : (pin.privacy == "private" && pin.user_id != viewer.id) = true := by
      simp [hpriv]
      exact fun h => hne h.symm
    rw [if_pos hc]
  · intro heq
    have hc : (pin.privacy == "private" && pin.user_id != viewer.id) = false := by
      simp [heq]
    rw [if_neg (by simp [hc]), if_neg (by simp [hpriv])]

/-- C1 witness: in the concrete store, carol is forbidden from alice's
private pin and alice reads it back. -/
theorem private_pin_access_witness :
    get_pin dbSmall carol "p1" = .error .forbidden ∧
    get_pin dbSmall ownerA "p1" = .ok pinPriv :=
  ⟨(private_pin_access dbSmall carol "p1" pinPriv rfl rfl).1 (by decide),
   (private_pin_access dbSmall ownerA "p1" pinPriv rfl rfl).2 rfl⟩

/-! ## C2: friends-tier pins -/

/-- C2 counterexample: the claim says a friends-tier pin is visible when
the viewer is in the owner's friends set, but get_pin tests the
viewer's friends set.  In the asymmetric state where the owner lists the
viewer but not conversely, the viewer is refused. -/
theorem friends_pin_owner_side_counterexample :
    pinFriends.privacy = "friends" ∧
    ownerAsym.id = pinFriends.user_id ∧
    viewerAsym.id ∈ ownerAsym.friends ∧
    viewerAsym.id ≠ pinFriends.user_id ∧
    dbAsym.users = [ownerAsym, viewerAsym] ∧
    dbAsym.pins = [pinFriends] ∧
    get_pin dbAsym viewerAsym "p2" = .error .forbidden :=
  ⟨rfl, rfl, by decide, by decide, rfl, rfl, rfl⟩

/-- C2 (amended): for every pin with privacy "friends", get_pin succeeds
iff the viewer is the owner or the pin's owner is a member of the
viewer's friends list; otherwise it fails Forbidden. -/
theorem friends_pin_access (db : DB) (viewer : UserDoc) (pin_id : String)
    (pin : PinDoc)
    (hfind : db.pins.find? (fun p => p.id == pin_id) = some pin)
    (hpriv : pin.privacy = "friends") :
    (get_pin db viewer pin_id = .ok pin ↔
      (viewer.id = pin.user_id ∨ pin.user_id ∈ viewer.friends)) ∧
    (¬(viewer.id = pin.user_id ∨ pin.user_id ∈ viewer.friends) →
      get_pin db viewer pin_id = .error .forbidden) := by
  simp only [get_pin, hfind]
  have hc1 : (pin.privacy == "private" && pin.user_id != viewer.id) = false := by
    simp [hpriv]
  by_cases howner : viewer.id = pin.user_id
  · rw [if_neg (by simp [hc1]), if_neg (by simp [howner])]
    simp [howner]
  · by_cases hmem : pin.user_id ∈ viewer.friends
    · rw [if_neg (by simp [hc1]), if_neg (by simp [hmem])]
      simp [hmem]
    · have hc2 : (pin.privacy == "friends" && pin.user_id != viewer.id
          && !(viewer.friends.contains pin.user_id)) = true := by
        simp [hpriv, hmem]
        exact fun h => howner h.symm
      rw [if_neg (by simp [hc1]), if_pos hc2]
      simp [howner, hmem]

/-- C2 witness: bob (whose friends list contains alice) reads alice's
friends-tier pin; carol (no friendship either way) is forbidden. -/
theorem friends_pin_access_witness :
    get_pin dbSmall bobFriendOfA "p2" = .ok pinFriends ∧
    get_pin dbSmall carol "p2" = .error .forbidden :=
  ⟨(friends_pin_access dbSmall bobFriendOfA "p2" pinFriends rfl rfl).1.mpr
      (Or.inr (by decide)),
   (friends_pin_access dbSmall carol "p2" pinFriends rfl rfl).2 (by decide)⟩

/-! ## C3: the explicit-privacy-filter branch of the feed -/

/-- 1001 distinct public pins (distinguished by latitude). -/
def mkPinC3 (i : Nat) : PinDoc :=
  ⟨"pc3", "u", "uma", "public", [], (i : ℚ), 0, "2024-01-01T00:00:00"⟩

def dbC3 : DB := ⟨[carol], (List.range 1001).map mkPinC3, [], [], []⟩

set_option maxRecDepth 4000 in
/-- C3 counterexample: with 1001 stored public pins, the cursor read cap
(`to_list(1000)`) makes get_pins with privacy filter "public" drop at
least one matching pin, so the filter branch does not return every
stored pin of that privacy. -/
theorem pins_filter_cap_counterexample :
    ∃ pin ∈ dbC3.pins, pin.privacy = "public" ∧
      pin ∉ get_pins dbC3 carol (some "public") := by
  by_contra h
  push_neg at h
  have hsub : dbC3.pins ⊆ get_pins dbC3 carol (some "public") := by
    intro pin hpin
    refine h pin hpin ?_
    have : ∃ i, i ∈ List.range 1001 ∧ mkPinC3 i = pin := by
      simpa [dbC3, List.mem_map] using hpin
    obtain ⟨i, _, rfl⟩ := this
    rfl
  have hnd : dbC3.pins.Nodup := by
    refine List.Nodup.map ?_ (List.nodup_range 1001)
    intro i j hij
    have : (i : ℚ) = (j : ℚ) := congrArg PinDoc.latitude hij
    exact_mod_cast this
  have hlen : dbC3.pins.length = 1001 := by
    simp [dbC3]
  have hle : dbC3.pins.length ≤ (get_pins dbC3 carol (some "public")).length :=
    (hnd.subperm hsub).length_le
  have hcap : (get_pins dbC3 carol (some "public")).length ≤ 1000 := by
    exact Nat.le_trans (Nat.le_of_eq (List.length_take 1000 _)) (Nat.min_le_left _ _)
  omega

/-- C3 (amended): provided at most 1000 stored pins match, get_pins with
an explicit non-empty privacy filter p returns exactly the stored pins
whose privacy is p, for every authenticated viewer (guests included) and
independently of the viewer: no ownership, friendship, or guest
restriction applies in that branch. -/
theorem pins_privacy_filter (db : DB) (viewer : UserDoc) (p : String)
    (hp : p ≠ "")
    (hcap : (db.pins.filter (fun pin => pin.privacy == p)).length ≤ 1000) :
    (∀ pin : PinDoc,
      pin ∈ get_pins db viewer (some p) ↔ pin ∈ db.pins ∧ pin.privacy = p) ∧
    (∀ viewer' : UserDoc,
      get_pins db viewer (some p) = get_pins db viewer' (some p)) := by
  have hq : ∀ v : UserDoc, pinsQuery v (some p) = fun pin => pin.privacy == p := by
    intro v
    funext pin
    simp [pinsQuery, hp]
  constructor
  · intro pin
    have hlen : ((db.pins.filter (fun pin => pin.privacy == p)).mergeSort
        createdDescLe).length ≤ 1000 := by
      simpa [List.length_mergeSort] using hcap
    simp [get_pins, hq viewer, List.take_of_length_le hlen, List.mem_mergeSort,
      List.mem_filter, beq_iff_eq, and_comm]
  · intro viewer'
    simp [get_pins, hq viewer, hq viewer']

/-- C3 witness: with a single stored pin per tier, the private filter
returns alice's private pin even to the guest viewer. -/
theorem pins_privacy_filter_witness :
    (∀ pin : PinDoc,
      pin ∈ get_pins dbSmall guestG (some "private") ↔
        pin ∈ dbSmall.pins ∧ pin.privacy = "private") ∧
    (∀ viewer' : UserDoc,
      get_pins dbSmall guestG (some "private") =
        get_pins dbSmall viewer' (some "private")) :=
  pins_privacy_filter dbSmall guestG "private" (by decide) (by decide)

/-! ## C4: guest feed isolation -/

/-- A guest-owned pin plus another user's public pin. -/
def pinOfGuest : PinDoc := ⟨"pg", "g", "guest", "private", [], 0, 0, "2024-01-05T00:00:00"⟩
def dbGuest : DB := ⟨[ownerA, guestG], [pinPub, pinOfGuest], [], [], []⟩

/-- C4: a guest's feed listing without an explicit privacy filter only
ever returns pins whose user_id is the guest's own id — never another
user's pin, public ones included. -/
theorem guest_feed_isolation (db : DB) (viewer : UserDoc)
    (hguest : viewer.is_guest = true) :
    ∀ pin ∈ get_pins db viewer none, pin.user_id = viewer.id := by
  intro pin hpin
  have hmem : pin ∈ db.pins.filter (pinsQuery viewer none) := by
    have h1 : pin ∈ (db.pins.filter (pinsQuery viewer none)).mergeSort
        createdDescLe := List.mem_of_mem_take (by simpa [get_pins] using hpin)
    exact List.mem_mergeSort.mp h1
  have hq : pinsQuery viewer none pin = true := (List.mem_filter.mp hmem).2
  simpa [pinsQuery, feedQuery, hguest] using hq

/-- C4 witness: in the store holding alice's public pin and the guest's
own pin, alice's public pin is not in the guest's feed. -/
theorem guest_feed_isolation_witness :
    pinPub ∉ get_pins dbGuest guestG none := fun h => by
  have := guest_feed_isolation dbGuest guestG rfl pinPub h
  simp [pinPub, guestG] at this

/-! ## C5: like-toggle idempotence -/

/-- Looking up a pin after setPinLikes finds the rewritten document. -/
theorem find_setPinLikes (l : List PinDoc) (pid : String) (likes : List String) :
    (setPinLikes l pid likes).find? (fun p => p.id == pid) =
      (l.find? (fun p => p.id == pid)).map (fun p => { p with likes := likes }) := by
  induction l with
  | nil => rfl
  | cons p rest ih =>
    by_cases h : p.id = pid
    · simp [setPinLikes, List.find?, h]
    · have hb : (p.id == pid) = false := by simp [h]
      simp [setPinLikes, hb, List.find?, ih]

/-- Toggling a user's like twice restores both the user's membership in
the likes list and its length, provided the user appears at most once
(the invariant the toggle itself maintains, starting from the empty
list). -/
theorem toggleLikes_twice (likes : List String) (u : String)
    (h : likes.count u ≤ 1) :
    (u ∈ toggleLikes (toggleLikes likes u) u ↔ u ∈ likes) ∧
    (toggleLikes (toggleLikes likes u) u).length = likes.length := by
  by_cases hm : u ∈ likes
  · have h1 : toggleLikes likes u = likes.erase u := by
      simp [toggleLikes, hm]
    have hcount : (likes.erase u).count u = 0 := by
      have := List.count_erase_self u likes
      have hpos : 1 ≤ likes.count u := List.one_le_count_iff.mpr hm
      omega
    have hnotmem : u ∉ likes.erase u := List.count_eq_zero.mp hcount
    have h2 : toggleLikes (likes.erase u) u = likes.erase u ++ [u] := by
      simp [toggleLikes, hnotmem]
    rw [h1, h2]
    constructor
    · simp [hm]
    · have hlen : (likes.erase u).length = likes.length - 1 :=
        List.length_erase_of_mem hm
      have hpos : 1 ≤ likes.length := List.length_pos.mpr
        (List.ne_nil_of_mem hm)
      simp [hlen]
      omega
  · have h1 : toggleLikes likes u = likes ++ [u] := by
      simp [toggleLikes, hm]
    have h2 : toggleLikes (likes ++ [u]) u = likes := by
      have : (likes ++ [u]).erase u = likes := by
        rw [List.erase_append_right _ hm]
        simp
      simp [toggleLikes, this]
    rw [h1, h2]
    simp [hm]

/-- The toggle keeps every user's like-count at most 1 when it was at
most 1, so the hypothesis of the idempotence theorem is an invariant of
like_pin (pins are created with an empty likes list). -/
theorem toggleLikes_count_le_one (likes : List String) (u w : String)
    (h : likes.count w ≤ 1) : (toggleLikes likes u).count w ≤ 1 := by
  by_cases hm : u ∈ likes
  · have h1 : toggleLikes likes u = likes.erase u := by
      simp [toggleLikes, hm]
    rw [h1]
    by_cases hw : w = u
    · subst hw
      have := List.count_erase_self w likes
      omega
    · rw [List.count_erase_of_ne hw]
      exact h
  · have h1 : toggleLikes likes u = likes ++ [u] := by
      simp [toggleLikes, hm]
    rw [h1]
    by_cases hw : w = u
    · subst hw
      have : likes.count w = 0 := List.count_eq_zero.mpr hm
      simp [List.count_append, this]
    · have hcz : List.count w [u] = 0 := by simp [hw]
      simpa [List.count_append, hcz] using h

/-- One like_pin step, written out. -/
theorem like_pin_eq (db : DB) (viewer : UserDoc) (pin_id : String) (pin : PinDoc)
    (hfind : db.pins.find? (fun p => p.id == pin_id) = some pin) :
    like_pin db viewer pin_id =
      .ok ({ db with pins := setPinLikes db.pins pin_id (toggleLikes pin.likes viewer.id) },
        (toggleLikes pin.likes viewer.id).length,
        (toggleLikes pin.likes viewer.id).contains viewer.id) := by
  simp [like_pin, hfind]

/-- C5: two successive like toggles by the same viewer on the same pin
(with no interleaved operation) leave that pin's likes with the original
membership for the viewer and the original count; the viewer's like
count per pin is at most 1 in every state like_pin can produce from a
freshly created pin. -/
theorem like_toggle_idempotent (db : DB) (viewer : UserDoc) (pin_id : String)
    (pin : PinDoc)
    (hfind : db.pins.find? (fun p => p.id == pin_id) = some pin)
    (hcount : pin.likes.count viewer.id ≤ 1) :
    ∃ db1 n1 b1 db2 n2 b2 pin2,
      like_pin db viewer pin_id = .ok (db1, n1, b1) ∧
      like_pin db1 viewer pin_id = .ok (db2, n2, b2) ∧
      db2.pins.find? (fun p => p.id == pin_id) = some pin2 ∧
      (viewer.id ∈ pin2.likes ↔ viewer.id ∈ pin.likes) ∧
      pin2.likes.length = pin.likes.length := by
  have h1 := like_pin_eq db viewer pin_id pin hfind
  have hfind1 : (setPinLikes db.pins pin_id (toggleLikes pin.likes viewer.id)).find?
      (fun p => p.id == pin_id) =
      some { pin with likes := toggleLikes pin.likes viewer.id } := by
    rw [find_setPinLikes, hfind]
    rfl
  have h2 := like_pin_eq
    { db with pins := setPinLikes db.pins pin_id (toggleLikes pin.likes viewer.id) }
    viewer pin_id { pin with likes := toggleLikes pin.likes viewer.id } hfind1
  have hfind2 := find_setPinLikes
    (setPinLikes db.pins pin_id (toggleLikes pin.likes viewer.id)) pin_id
    (toggleLikes (toggleLikes pin.likes viewer.id) viewer.id)
  rw [hfind1] at hfind2
  obtain ⟨hmem, hlen⟩ := toggleLikes_twice pin.likes viewer.id hcount
  refine ⟨_, _, _, _, _, _, _, h1, h2, hfind2, ?_, ?_⟩
  · simpa using hmem
  · simpa using hlen

/-- C5 witness: toggling bob's like twice on the already-bob-liked public
pin restores its like-state. -/
theorem like_toggle_idempotent_witness :
    ∃ db1 n1 b1 db2 n2 b2 pin2,
      like_pin dbSmall bobFriendOfA "p3" = .ok (db1, n1, b1) ∧
      like_pin db1 bobFriendOfA "p3" = .ok (db2, n2, b2) ∧
      db2.pins.find? (fun p => p.id == "p3") = some pin2 ∧
      (bobFriendOfA.id ∈ pin2.likes ↔ bobFriendOfA.id ∈ pinPub.likes) ∧
      pin2.likes.length = pinPub.likes.length :=
  like_toggle_idempotent dbSmall bobFriendOfA "p3" pinPub rfl (by decide)

/-! ## C6: cascading delete -/

/-- After delete_one removes the first pin with the given id, no pin with
that id remains, provided at most one matched to begin with (pin ids are
uuids, unique in any state the API produces). -/
theorem find_deleteOnePin_eq_none (l : List PinDoc) (pid : String)
    (huniq : (l.filter (fun p => p.id == pid)).length ≤ 1) :
    (deleteOnePin l pid).find? (fun p => p.id == pid) = none := by
  induction l with
  | nil => rfl
  | cons p rest ih =>
    by_cases hp : p.id = pid
    · have hb : (p.id == pid) = true := by simp [hp]
      have hall : ∀ a ∈ rest, ¬a.id = pid := by
        have := huniq
        simp [List.filter_cons, hb] at this
        exact this
      have hnone : rest.find? (fun q => q.id == pid) = none := by
        rw [List.find?_eq_none]
        intro x hx
        simpa using hall x hx
      simp [deleteOnePin, hb, hnone]
    · have hb : (p.id == pid) = false := by simp [hp]
      have huniq2 : (rest.filter (fun q => q.id == pid)).length ≤ 1 := by
        have := huniq
        simpa [List.filter_cons, hb] using this
      simp [deleteOnePin, hb, List.find?, ih huniq2]

/-- C6: after a successful owner delete — for every possible set of
failing blob deletions, which are swallowed and never surface —
the pin's media listing is empty and re-fetching the pin fails
NotFound. -/
theorem delete_pin_cascades (db : DB) (viewer : UserDoc) (pin_id : String)
    (pin : PinDoc)
    (hfind : db.pins.find? (fun p => p.id == pin_id) = some pin)
    (howner : pin.user_id = viewer.id)
    (huniq : (db.pins.filter (fun p => p.id == pin_id)).length ≤ 1) :
    ∀ failing : List String, ∃ db2 : DB,
      delete_pin db viewer pin_id failing = .ok db2 ∧
      get_media db2 pin_id = [] ∧
      get_pin db2 viewer pin_id = .error .notFound := by
  intro failing
  have hdel : delete_pin db viewer pin_id failing =
      .ok { db with
        blobs := db.blobs.filter (fun b => !(((db.media.filter (fun m => m.pin_id == pin_id)).take 1000).any (fun m => m.file_id == b) && !(failing.contains b))),
        media := db.media.filter (fun m => m.pin_id != pin_id),
        pins := deleteOnePin db.pins pin_id } := by
    simp [delete_pin, hfind, howner]
  refine ⟨_, hdel, ?_, ?_⟩
  · have hnil : (db.media.filter (fun m => m.pin_id != pin_id)).filter
        (fun m => m.pin_id == pin_id) = [] := by
      rw [List.filter_filter]
      rw [List.filter_eq_nil_iff]
      intro m _
      simp
    simp [get_media, hnil]
  · have hnone := find_deleteOnePin_eq_none db.pins pin_id huniq
    simp [get_pin, hnone]

/-- Fixture for the cascade: one pin with one media row whose blob is
present. -/
def mediaM1 : MediaDoc := ⟨"m1", "p3", "a", "f1"⟩
def dbMedia : DB := ⟨[ownerA], [pinPub], [mediaM1], [], ["f1"]⟩

/-- C6 witness: alice deletes her pin while the blob store refuses to
delete blob f1; the call still succeeds, the media listing is empty and
the pin is gone. -/
theorem delete_pin_cascades_witness :
    ∃ db2 : DB,
      delete_pin dbMedia ownerA "p3" ["f1"] = .ok db2 ∧
      get_media db2 "p3" = [] ∧
      get_pin db2 ownerA "p3" = .error .notFound :=
  delete_pin_cascades dbMedia ownerA "p3" pinPub rfl rfl (by decide) ["f1"]

/-! ## C7: friend-request lifecycle -/

/-- addToSet always ends with its argument present. -/
theorem mem_addToSet_self (l : List String) (x : String) : x ∈ addToSet l x := by
  unfold addToSet
  by_cases h : l.contains x
  · rw [if_pos h]
    simpa using h
  · rw [if_neg h]
    simp

/-- Pulling x removes every occurrence of x. -/
theorem not_mem_filter_ne (l : List String) (x : String) :
    x ∉ l.filter (fun r => r != x) := by
  intro h
  have := (List.mem_filter.mp h).2
  simp at this

/-- Looking up the updated id finds the transformed document, for any
update that preserves ids. -/
theorem find_updateUserFirst_self (l : List UserDoc) (uid : String)
    (f : UserDoc → UserDoc) (hid : ∀ u, (f u).id = u.id) :
    (updateUserFirst l uid f).find? (fun u => u.id == uid) =
      (l.find? (fun u => u.id == uid)).map f := by
  induction l with
  | nil => rfl
  | cons u rest ih =>
    by_cases h : u.id = uid
    · have hb : (u.id == uid) = true := by simp [h]
      simp [updateUserFirst, hb, List.find?, hid u, h]
    · have hb : (u.id == uid) = false := by simp [h]
      simp [updateUserFirst, hb, List.find?, ih]

/-- Looking up a different id is unaffected by an id-preserving update. -/
theorem find_updateUserFirst_other (l : List UserDoc) (uid uid2 : String)
    (f : UserDoc → UserDoc) (hne : uid2 ≠ uid) (hid : ∀ u, (f u).id = u.id) :
    (updateUserFirst l uid f).find? (fun u => u.id == uid2) =
      l.find? (fun u => u.id == uid2) := by
  induction l with
  | nil => rfl
  | cons u rest ih =>
    by_cases h : u.id = uid
    · have hb : (u.id == uid) = true := by simp [h]
      have hb2 : (u.id == uid2) = false := by
        simp [h]
        exact fun hh => hne hh.symm
      have hb2f : ((f u).id == uid2) = false := by
        rw [hid u]
        exact hb2
      simp [updateUserFirst, hb, List.find?, hb2, hb2f]
    · have hb : (u.id == uid) = false := by simp [h]
      by_cases h2 : u.id = uid2
      · have hb2 : (u.id == uid2) = true := by simp [h2]
        simp [updateUserFirst, hb, List.find?, hb2]
      · have hb2 : (u.id == uid2) = false := by simp [h2]
        simp [updateUserFirst, hb, List.find?, hb2, ih]

/-- C7: for distinct users A and B that are not already friends (on A's
side, the one send_friend_request checks), requestFriend(A,B) followed by
acceptFriend(B,A) succeeds and leaves B in A's friends, A in B's
friends, and A absent from B's friend_requests. -/
theorem friend_lifecycle (db : DB) (aid bid : String) (ua ub : UserDoc)
    (ha : db.users.find? (fun u => u.id == aid) = some ua)
    (hb : db.users.find? (fun u => u.id == bid) = some ub)
    (hne : aid ≠ bid)
    (hnf : bid ∉ ua.friends) :
    ∃ db1 db2 ua2 ub2,
      runSend db aid bid = .ok db1 ∧
      runAccept db1 bid aid = .ok db2 ∧
      db2.users.find? (fun u => u.id == aid) = some ua2 ∧
      db2.users.find? (fun u => u.id == bid) = some ub2 ∧
      bid ∈ ua2.friends ∧
      aid ∈ ub2.friends ∧
      aid ∉ ub2.friend_requests := by
  have hua_id : ua.id = aid := by simpa using List.find?_some ha
  have hub_id : ub.id = bid := by simpa using List.find?_some hb
  have hc1 : (bid == ua.id) = false := by
    simp [hua_id]
    exact fun h => hne h.symm
  have hsend : runSend db aid bid =
      .ok { db with users := updateUserFirst db.users bid (addRequest ua.id) } := by
    simp [runSend, ha, send_friend_request, hc1, hb, hnf]
  have hfb1 : (updateUserFirst db.users bid (addRequest ua.id)).find?
      (fun u => u.id == bid) =
      (db.users.find? (fun u => u.id == bid)).map (addRequest ua.id) :=
    find_updateUserFirst_self _ _ _ (fun u => rfl)
  rw [hb, Option.map_some'] at hfb1
  have hreq : ((addRequest ua.id ub).friend_requests.contains aid) = true := by
    simp [addRequest]
    rw [hua_id]
    exact mem_addToSet_self ub.friend_requests aid
  have haccept : runAccept { db with users := updateUserFirst db.users bid (addRequest ua.id) } bid aid =
      .ok { db with users := updateUserFirst (updateUserFirst (updateUserFirst db.users bid (addRequest ua.id)) bid (acceptUpd aid)) aid (friendAdd bid) } := by
    simp only [runAccept, hfb1]
    have hid2 : (addRequest ua.id ub).id = ub.id := rfl
    simp [accept_friend_request, hreq, hid2, hub_id, addRequest]
    rw [hua_id]
    exact mem_addToSet_self ub.friend_requests aid
  have h3a : (updateUserFirst (updateUserFirst (updateUserFirst db.users bid (addRequest ua.id)) bid (acceptUpd aid)) aid (friendAdd bid)).find? (fun u => u.id == aid) =
      ((updateUserFirst (updateUserFirst db.users bid (addRequest ua.id)) bid (acceptUpd aid)).find? (fun u => u.id == aid)).map (friendAdd bid) :=
    find_updateUserFirst_self _ _ _ (fun u => rfl)
  have h3b : (updateUserFirst (updateUserFirst db.users bid (addRequest ua.id)) bid (acceptUpd aid)).find? (fun u => u.id == aid) =
      (updateUserFirst db.users bid (addRequest ua.id)).find? (fun u => u.id == aid) :=
    find_updateUserFirst_other _ _ _ _ hne (fun u => rfl)
  have h3c : (updateUserFirst db.users bid (addRequest ua.id)).find? (fun u => u.id == aid) =
      db.users.find? (fun u => u.id == aid) :=
    find_updateUserFirst_other _ _ _ _ hne (fun u => rfl)
  rw [h3b, h3c, ha, Option.map_some'] at h3a
  have h4a : (updateUserFirst (updateUserFirst (updateUserFirst db.users bid (addRequest ua.id)) bid (acceptUpd aid)) aid (friendAdd bid)).find? (fun u => u.id == bid) =
      (updateUserFirst (updateUserFirst db.users bid (addRequest ua.id)) bid (acceptUpd aid)).find? (fun u => u.id == bid) :=
    find_updateUserFirst_other _ _ _ _ (Ne.symm hne) (fun u => rfl)
  have h4b : (updateUserFirst (updateUserFirst db.users bid (addRequest ua.id)) bid (acceptUpd aid)).find? (fun u => u.id == bid) =
      ((updateUserFirst db.users bid (addRequest ua.id)).find? (fun u => u.id == bid)).map (acceptUpd aid) :=
    find_updateUserFirst_self _ _ _ (fun u => rfl)
  rw [h4b, hfb1, Option.map_some'] at h4a
  refine ⟨_, _, _, _, hsend, haccept, h3a, h4a, ?_, ?_, ?_⟩
  · exact mem_addToSet_self ua.friends bid
  · exact mem_addToSet_self ub.friends aid
  · exact not_mem_filter_ne _ aid

/-- C7 witness: alice requests carol, carol accepts; both ends of the
edge exist and the pending request is gone. -/
theorem friend_lifecycle_witness :
    ∃ db1 db2 ua2 ub2,
      runSend dbSmall "a" "c" = .ok db1 ∧
      runAccept db1 "c" "a" = .ok db2 ∧
      db2.users.find? (fun u => u.id == "a") = some ua2 ∧
      db2.users.find? (fun u => u.id == "c") = some ub2 ∧
      "c" ∈ ua2.friends ∧
      "a" ∈ ub2.friends ∧
      "a" ∉ ub2.friend_requests :=
  friend_lifecycle dbSmall "a" "c" ownerA carol rfl rfl (by decide) (by decide)

/-! ## C8: trending -/

/-- The trending key is total. -/
theorem trendingLe_total (a b : PinDoc) :
    (trendingLe a b || trendingLe b a) = true := by
  simp only [trendingLe, Bool.or_eq_true, Bool.and_eq_true, decide_eq_true_eq,
    beq_iff_eq]
  rcases Nat.lt_trichotomy a.likes.length b.likes.length with h | h | h
  · exact Or.inr (Or.inl h)
  · rcases le_total a.created_at b.created_at with hc | hc
    · exact Or.inr (Or.inr ⟨h, hc⟩)
    · exact Or.inl (Or.inr ⟨h.symm, hc⟩)
  · exact Or.inl (Or.inl h)

/-- The trending key is transitive. -/
theorem trendingLe_trans (a b c : PinDoc) (h1 : trendingLe a b) (h2 : trendingLe b c) :
    trendingLe a c = true := by
  simp only [trendingLe, Bool.or_eq_true, Bool.and_eq_true, decide_eq_true_eq,
    beq_iff_eq] at h1 h2 ⊢
  rcases h1 with h1 | ⟨h1e, h1s⟩
  · rcases h2 with h2 | ⟨h2e, h2s⟩
    · exact Or.inl (Nat.lt_trans h2 h1)
    · exact Or.inl (h2e ▸ h1)
  · rcases h2 with h2 | ⟨h2e, h2s⟩
    · exact Or.inl (h1e ▸ h2)
    · exact Or.inr ⟨h2e.trans h1e, le_trans h2s h1s⟩

/-- C8: get_trending returns at most 50 pins, all public and stored,
in order of non-increasing like count with ties broken by more recent
created_at first; and when at most 50 public pins exist, every public
pin appears. -/
theorem get_trending_spec (db : DB) :
    (get_trending db).length ≤ 50 ∧
    (∀ p ∈ get_trending db, p ∈ db.pins ∧ p.privacy = "public") ∧
    List.Pairwise (fun a b => b.likes.length < a.likes.length ∨
      (b.likes.length = a.likes.length ∧ b.created_at ≤ a.created_at))
      (get_trending db) ∧
    ((db.pins.filter (fun p => p.privacy == "public")).length ≤ 50 →
      ∀ p ∈ db.pins, p.privacy = "public" → p ∈ get_trending db) := by
  refine ⟨?_, ?_, ?_, ?_⟩
  · exact Nat.le_trans (Nat.le_of_eq (List.length_take 50 _)) (Nat.min_le_left _ _)
  · intro p hp
    have h1 : p ∈ (db.pins.filter (fun p => p.privacy == "public")).mergeSort
        trendingLe := List.mem_of_mem_take hp
    have h2 := List.mem_filter.mp (List.mem_mergeSort.mp h1)
    exact ⟨h2.1, by simpa using h2.2⟩
  · have hs := List.sorted_mergeSort
      (fun a b c => trendingLe_trans a b c) trendingLe_total
      (db.pins.filter (fun p => p.privacy == "public"))
    have hs2 := hs.sublist (List.take_sublist 50 _)
    refine hs2.imp ?_
    intro a b hab
    simpa only [trendingLe, Bool.or_eq_true, Bool.and_eq_true,
      decide_eq_true_eq, beq_iff_eq] using hab
  · intro hcap p hp hpub
    have hlen : ((db.pins.filter (fun p => p.privacy == "public")).mergeSort
        trendingLe).length ≤ 50 := by
      simpa [List.length_mergeSort] using hcap
    rw [get_trending, List.take_of_length_le hlen, List.mem_mergeSort,
      List.mem_filter]
    exact ⟨hp, by simp [hpub]⟩

/-- C8 witness: the trending listing of the small concrete store. -/
theorem get_trending_spec_witness :
    (get_trending dbSmall).length ≤ 50 ∧
    (∀ p ∈ get_trending dbSmall, p ∈ dbSmall.pins ∧ p.privacy = "public") ∧
    List.Pairwise (fun a b => b.likes.length < a.likes.length ∨
      (b.likes.length = a.likes.length ∧ b.created_at ≤ a.created_at))
      (get_trending dbSmall) ∧
    ((dbSmall.pins.filter (fun p => p.privacy == "public")).length ≤ 50 →
      ∀ p ∈ dbSmall.pins, p.privacy = "public" → p ∈ get_trending dbSmall) :=
  get_trending_spec dbSmall

/-! ## C9: nearby -/

/-- Every entry produced by the nearby loop comes from the scanned list,
lies within the radius, and reports its rounded distance. -/
theorem mem_nearbyLoop (qlat qlng : ℚ) (radius : ℝ) (l : List PinDoc)
    (x : PinDoc × ℝ) (hx : x ∈ nearbyLoop qlat qlng radius l) :
    x.1 ∈ l ∧ pinDistance qlat qlng x.1 ≤ radius ∧
      x.2 = round2 (pinDistance qlat qlng x.1) := by
  induction l with
  | nil => simp [nearbyLoop] at hx
  | cons p rest ih =>
    simp only [nearbyLoop] at hx
    by_cases h : pinDistance qlat qlng p ≤ radius
    · rw [if_pos h] at hx
      rcases List.mem_cons.mp hx with hx1 | hx2
      · subst hx1
        exact ⟨List.mem_cons_self p rest, h, rfl⟩
      · obtain ⟨h1, h2, h3⟩ := ih hx2
        exact ⟨List.mem_cons_of_mem p h1, h2, h3⟩
    · rw [if_neg h] at hx
      obtain ⟨h1, h2, h3⟩ := ih hx
      exact ⟨List.mem_cons_of_mem p h1, h2, h3⟩

/-- Every scanned pin within the radius shows up in the loop output. -/
theorem nearbyLoop_complete (qlat qlng : ℚ) (radius : ℝ) (l : List PinDoc)
    (p : PinDoc) (hp : p ∈ l) (hd : pinDistance qlat qlng p ≤ radius) :
    (p, round2 (pinDistance qlat qlng p)) ∈ nearbyLoop qlat qlng radius l := by
  induction l with
  | nil => simp at hp
  | cons q rest ih =>
    simp only [nearbyLoop]
    rcases List.mem_cons.mp hp with heq | hp2
    · subst heq
      rw [if_pos hd]
      exact List.mem_cons_self _ _
    · by_cases h : pinDistance qlat qlng q ≤ radius
      · rw [if_pos h]
        exact List.mem_cons_of_mem _ (ih hp2)
      · rw [if_neg h]
        exact ih hp2

/-- The nearby sort key is total. -/
theorem nearbyLe_total (a b : PinDoc × ℝ) : (nearbyLe a b || nearbyLe b a) = true := by
  simp only [nearbyLe, Bool.or_eq_true, decide_eq_true_eq]
  exact le_total a.2 b.2

/-- The nearby sort key is transitive. -/
theorem nearbyLe_trans (a b c : PinDoc × ℝ) (h1 : nearbyLe a b)
    (h2 : nearbyLe b c) : nearbyLe a c = true := by
  simp only [nearbyLe, decide_eq_true_eq] at h1 h2 ⊢
  exact le_trans h1 h2

/-- C9 (amended): provided at most 1000 public pins are stored, the
nearby listing returns at most 50 entries, each a stored public pin
within the radius tagged with its distance rounded to two decimals,
ascending in the reported distance; and when fewer than 50 entries are
returned, every public pin within the radius is present. -/
theorem get_nearby_spec (db : DB) (qlat qlng : ℚ) (radius : ℝ)
    (hcap : (db.pins.filter (fun p => p.privacy == "public")).length ≤ 1000) :
    (get_nearby db qlat qlng radius).length ≤ 50 ∧
    (∀ x ∈ get_nearby db qlat qlng radius,
      x.1 ∈ db.pins ∧ x.1.privacy = "public" ∧
      pinDistance qlat qlng x.1 ≤ radius ∧
      x.2 = round2 (pinDistance qlat qlng x.1)) ∧
    List.Pairwise (fun a b : PinDoc × ℝ => a.2 ≤ b.2)
      (get_nearby db qlat qlng radius) ∧
    ((get_nearby db qlat qlng radius).length < 50 →
      ∀ p ∈ db.pins, p.privacy = "public" → pinDistance qlat qlng p ≤ radius →
        (p, round2 (pinDistance qlat qlng p)) ∈ get_nearby db qlat qlng radius) := by
  have htake : (db.pins.filter (fun p => p.privacy == "public")).take 1000 =
      db.pins.filter (fun p => p.privacy == "public") :=
    List.take_of_length_le hcap
  refine ⟨?_, ?_, ?_, ?_⟩
  · exact Nat.le_trans (Nat.le_of_eq (List.length_take 50 _)) (Nat.min_le_left _ _)
  · intro x hx
    have h1 : x ∈ (nearbyLoop qlat qlng radius
        ((db.pins.filter (fun p => p.privacy == "public")).take 1000)).mergeSort
        nearbyLe := List.mem_of_mem_take hx
    obtain ⟨hm, hd, hr⟩ := mem_nearbyLoop _ _ _ _ _ (List.mem_mergeSort.mp h1)
    rw [htake] at hm
    have h2 := List.mem_filter.mp hm
    exact ⟨h2.1, by simpa using h2.2, hd, hr⟩
  · have hs := List.sorted_mergeSort
      (fun a b c => nearbyLe_trans a b c) nearbyLe_total
      (nearbyLoop qlat qlng radius
        ((db.pins.filter (fun p => p.privacy == "public")).take 1000))
    have hs2 := hs.sublist (List.take_sublist 50 _)
    refine hs2.imp ?_
    intro a b hab
    simpa only [nearbyLe, decide_eq_true_eq] using hab
  · intro hfew p hp hpub hd
    have hlt : ((nearbyLoop qlat qlng radius
        ((db.pins.filter (fun p => p.privacy == "public")).take 1000)).mergeSort
        nearbyLe).length ≤ 50 := by
      have := hfew
      rw [get_nearby, List.length_take] at this
      omega
    rw [get_nearby, List.take_of_length_le hlt, List.mem_mergeSort]
    refine nearbyLoop_complete _ _ _ _ _ ?_ hd
    rw [htake]
    exact List.mem_filter.mpr ⟨hp, by simp [hpub]⟩

/-- A public pin at the query point, and a distant public pin of which
1000 copies are stored ahead of it. -/
def pinNear : PinDoc := ⟨"pn", "u", "uma", "public", [], 0, 0, "2024-01-01T00:00:00"⟩
def pinFar : PinDoc := ⟨"pf", "u", "uma", "public", [], 100, 0, "2024-01-01T00:00:00"⟩
def dbC9 : DB := ⟨[], List.replicate 1000 pinFar ++ [pinNear], [], [], []⟩

set_option maxRecDepth 8000 in
/-- C9 counterexample: the cursor read cap (`to_list(1000)`) drops the
1001st stored pin before the distance filter runs, so a public pin at
distance 0 from the query is absent from the nearby listing even though
fewer than 50 results are returned. -/
theorem nearby_cap_counterexample :
    pinNear ∈ dbC9.pins ∧ pinNear.privacy = "public" ∧
    pinDistance 0 0 pinNear ≤ 10 ∧
    ∀ d : ℝ, (pinNear, d) ∉ get_nearby dbC9 0 0 10 := by
  have hdist : pinDistance 0 0 pinNear = 0 := by
    simp [pinDistance, pinNear]
  refine ⟨?_, rfl, ?_, ?_⟩
  · exact List.mem_append_right _ (List.mem_singleton.mpr rfl)
  · rw [hdist]
    norm_num
  · intro d hd
    have hfil : dbC9.pins.filter (fun p => p.privacy == "public") = dbC9.pins := by
      rw [List.filter_eq_self]
      intro a ha
      rcases List.mem_append.mp ha with h | h
      · rw [List.eq_of_mem_replicate h]
        rfl
      · simp only [List.mem_singleton] at h
        subst h
        rfl
    have htake : dbC9.pins.take 1000 = List.replicate 1000 pinFar := by
      show ((List.replicate 1000 pinFar) ++ [pinNear]).take 1000 = _
      exact List.take_left' (by simp)
    have h1 : (pinNear, d) ∈ (nearbyLoop 0 0 10
        ((dbC9.pins.filter (fun p => p.privacy == "public")).take 1000)).mergeSort
        nearbyLe := List.mem_of_mem_take hd
    rw [hfil, htake] at h1
    obtain ⟨hm, _, _⟩ := mem_nearbyLoop _ _ _ _ _ (List.mem_mergeSort.mp h1)
    have : pinNear = pinFar := List.eq_of_mem_replicate hm
    simp [pinNear, pinFar] at this

/-- A single public pin 0.03 degrees of latitude from the origin. -/
def pinClose : PinDoc := ⟨"pc", "u", "uma", "public", [], 3/100, 0, "2024-01-01T00:00:00"⟩
def dbC9w : DB := ⟨[], [pinClose], [], [], []⟩

/-- C9 witness: the nearby listing over the one-pin store. -/
theorem get_nearby_spec_witness :
    (get_nearby dbC9w 0 0 10).length ≤ 50 ∧
    (∀ x ∈ get_nearby dbC9w 0 0 10,
      x.1 ∈ dbC9w.pins ∧ x.1.privacy = "public" ∧
      pinDistance 0 0 x.1 ≤ 10 ∧
      x.2 = round2 (pinDistance 0 0 x.1)) ∧
    List.Pairwise (fun a b : PinDoc × ℝ => a.2 ≤ b.2) (get_nearby dbC9w 0 0 10) ∧
    ((get_nearby dbC9w 0 0 10).length < 50 →
      ∀ p ∈ dbC9w.pins, p.privacy = "public" → pinDistance 0 0 p ≤ 10 →
        (p, round2 (pinDistance 0 0 p)) ∈ get_nearby dbC9w 0 0 10) :=
  get_nearby_spec dbC9w 0 0 10 (by decide)

/-! ## C10: conversation aggregation -/

/-- groupFirst only emits documents of its input. -/
theorem groupFirst_subset (key : MessageDoc → String) (l : List MessageDoc) :
    ∀ m ∈ groupFirst key l, m ∈ l := by
  induction l using groupFirst.induct key with
  | case1 => simp [groupFirst]
  | case2 m rest ih =>
    intro x hx
    rw [groupFirst] at hx
    rcases List.mem_cons.mp hx with h | h
    · exact h ▸ List.mem_cons_self m rest
    · exact List.mem_cons_of_mem m (List.mem_of_mem_filter (ih x h))

/-- Every key of the input has a representative in the groupFirst
output. -/
theorem groupFirst_complete (key : MessageDoc → String) (l : List MessageDoc) :
    ∀ m2 ∈ l, ∃ m ∈ groupFirst key l, key m = key m2 := by
  induction l using groupFirst.induct key with
  | case1 => simp
  | case2 m rest ih =>
    intro m2 hm2
    rw [groupFirst]
    rcases List.mem_cons.mp hm2 with h | h
    · exact ⟨m, List.mem_cons_self _ _, by rw [h]⟩
    · by_cases hk : key m2 = key m
      · exact ⟨m, List.mem_cons_self _ _, hk.symm⟩
      · have hmem : m2 ∈ rest.filter (fun x => key x != key m) :=
          List.mem_filter.mpr ⟨h, by simpa using hk⟩
        obtain ⟨m0, hm0, hkey⟩ := ih m2 hmem
        exact ⟨m0, List.mem_cons_of_mem _ hm0, hkey⟩

/-- Distinct entries of the groupFirst output carry distinct keys. -/
theorem groupFirst_keys_pairwise (key : MessageDoc → String) (l : List MessageDoc) :
    List.Pairwise (fun a b => key a ≠ key b) (groupFirst key l) := by
  induction l using groupFirst.induct key with
  | case1 => simp [groupFirst]
  | case2 m rest ih =>
    rw [groupFirst]
    refine List.Pairwise.cons ?_ ih
    intro x hx
    have hxf := groupFirst_subset key _ x hx
    have := (List.mem_filter.mp hxf).2
    simp only [bne_iff_ne, ne_eq] at this
    exact fun hc => this hc.symm

/-- On a list sorted by descending created_at, each groupFirst
representative dominates every input document with its key. -/
theorem groupFirst_max (key : MessageDoc → String) (l : List MessageDoc)
    (hp : List.Pairwise (fun a b => b.created_at ≤ a.created_at) l) :
    ∀ m ∈ groupFirst key l, ∀ m2 ∈ l, key m2 = key m →
      m2.created_at ≤ m.created_at := by
  induction l using groupFirst.induct key with
  | case1 => simp
  | case2 m rest ih =>
    intro x hx m2 hm2 hk
    obtain ⟨hhead, htail⟩ := List.pairwise_cons.mp hp
    rw [groupFirst] at hx
    rcases List.mem_cons.mp hx with h | h
    · subst h
      rcases List.mem_cons.mp hm2 with h2 | h2
      · exact h2 ▸ le_refl _
      · exact hhead m2 h2
    · have hxf := groupFirst_subset key _ x h
      have hxk : key x ≠ key m := by
        have := (List.mem_filter.mp hxf).2
        simpa using this
      rcases List.mem_cons.mp hm2 with h2 | h2
      · exact absurd (h2 ▸ hk : key m = key x).symm hxk
      · have hm2f : m2 ∈ rest.filter (fun y => key y != key m) :=
          List.mem_filter.mpr ⟨h2, by simpa using fun hc => hxk (hk ▸ hc)⟩
        exact ih (htail.filter _) x h m2 hm2f hk

/-- groupFirst never emits more documents than it scans. -/
theorem groupFirst_length_le (key : MessageDoc → String) (l : List MessageDoc) :
    (groupFirst key l).length ≤ l.length := by
  induction l using groupFirst.induct key with
  | case1 => simp [groupFirst]
  | case2 m rest ih =>
    rw [groupFirst]
    simp only [List.length_cons]
    exact Nat.succ_le_succ (Nat.le_trans ih (rest.length_filter_le _))

/-- The conversation sort key is total. -/
theorem msgDescLe_total (a b : MessageDoc) : (msgDescLe a b || msgDescLe b a) = true := by
  simp only [msgDescLe, Bool.or_eq_true, decide_eq_true_eq]
  exact (le_total b.created_at a.created_at)

/-- The conversation sort key is transitive. -/
theorem msgDescLe_trans (a b c : MessageDoc) (h1 : msgDescLe a b)
    (h2 : msgDescLe b c) : msgDescLe a c = true := by
  simp only [msgDescLe, decide_eq_true_eq] at h1 h2 ⊢
  exact le_trans h2 h1

/-- C10 (amended): provided the user has at most 100 messages (so the
100-record read cap is not hit), listConversations returns only
messages involving the user, exactly one per distinct peer, each of
maximal created_at within its peer partition, and one for every peer the
user exchanged messages with. -/
theorem conversations_spec (db : DB) (uid : String)
    (hcap : (db.messages.filter (involvedB uid)).length ≤ 100) :
    (∀ m ∈ get_conversations db uid, m ∈ db.messages ∧ involvedB uid m = true) ∧
    (∀ m ∈ get_conversations db uid, ∀ m2 ∈ db.messages,
      involvedB uid m2 = true → otherId uid m2 = otherId uid m →
      m2.created_at ≤ m.created_at) ∧
    (∀ m2 ∈ db.messages, involvedB uid m2 = true →
      ∃ m ∈ get_conversations db uid, otherId uid m = otherId uid m2) ∧
    (∀ m ∈ get_conversations db uid, ∀ m2 ∈ get_conversations db uid,
      otherId uid m = otherId uid m2 → m = m2) := by
  have hglen : (groupFirst (otherId uid)
      ((db.messages.filter (involvedB uid)).mergeSort msgDescLe)).length ≤ 100 := by
    calc (groupFirst (otherId uid)
        ((db.messages.filter (involvedB uid)).mergeSort msgDescLe)).length
        ≤ ((db.messages.filter (involvedB uid)).mergeSort msgDescLe).length :=
          groupFirst_length_le _ _
      _ ≤ 100 := by simpa [List.length_mergeSort] using hcap
  have htake : get_conversations db uid = groupFirst (otherId uid)
      ((db.messages.filter (involvedB uid)).mergeSort msgDescLe) := by
    rw [get_conversations, List.take_of_length_le hglen]
  have hsorted : List.Pairwise (fun a b : MessageDoc => b.created_at ≤ a.created_at)
      ((db.messages.filter (involvedB uid)).mergeSort msgDescLe) := by
    have hs := List.sorted_mergeSort
      (fun a b c => msgDescLe_trans a b c) msgDescLe_total
      (db.messages.filter (involvedB uid))
    refine hs.imp ?_
    intro a b hab
    simpa only [msgDescLe, decide_eq_true_eq] using hab
  refine ⟨?_, ?_, ?_, ?_⟩
  · intro m hm
    rw [htake] at hm
    have h1 := groupFirst_subset _ _ m hm
    have h2 := List.mem_filter.mp (List.mem_mergeSort.mp h1)
    exact ⟨h2.1, h2.2⟩
  · intro m hm m2 hm2 hinv hk
    rw [htake] at hm
    have h2 : m2 ∈ (db.messages.filter (involvedB uid)).mergeSort msgDescLe :=
      List.mem_mergeSort.mpr (List.mem_filter.mpr ⟨hm2, hinv⟩)
    exact groupFirst_max _ _ hsorted m hm m2 h2 hk
  · intro m2 hm2 hinv
    have h2 : m2 ∈ (db.messages.filter (involvedB uid)).mergeSort msgDescLe :=
      List.mem_mergeSort.mpr (List.mem_filter.mpr ⟨hm2, hinv⟩)
    obtain ⟨m, hm, hk⟩ := groupFirst_complete _ _ m2 h2
    rw [htake]
    exact ⟨m, hm, hk⟩
  · intro m hm m2 hm2 hk
    rw [htake] at hm hm2
    by_contra hne
    have hpw := groupFirst_keys_pairwise (otherId uid)
      ((db.messages.filter (involvedB uid)).mergeSort msgDescLe)
    have hsym : Symmetric (fun a b : MessageDoc => otherId uid a ≠ otherId uid b) :=
      fun a b h => fun hc => h hc.symm
    exact (hpw.forall hsym hm hm2 hne) hk

/-- 101 messages from user A to 101 distinct peers. -/
def mkMsgC10 (i : Nat) : MessageDoc :=
  ⟨"m", "A", "p" ++ toString i, "x", "2024-01-01T00:00:00"⟩

def dbC10 : DB := ⟨[], [], [], (List.range 101).map mkMsgC10, []⟩

set_option maxRecDepth 8000 in
/-- C10 counterexample: the aggregation read cap (`to_list(100)`) can
return at most 100 records, so with 101 distinct peers some peer the
user messaged has no conversation record, contradicting one record per
distinct peer. -/
theorem conversations_cap_counterexample :
    ∃ m2 ∈ dbC10.messages, involvedB "A" m2 = true ∧
      ∀ m ∈ get_conversations dbC10 "A", otherId "A" m ≠ otherId "A" m2 := by
  by_contra h
  push_neg at h
  have hsub : dbC10.messages.map (otherId "A") ⊆
      (get_conversations dbC10 "A").map (otherId "A") := by
    intro k hk
    obtain ⟨m2, hm2, rfl⟩ := List.mem_map.mp hk
    have hinv : involvedB "A" m2 = true := by
      obtain ⟨i, _, rfl⟩ : ∃ i, i ∈ List.range 101 ∧ mkMsgC10 i = m2 := by
        simpa [dbC10, List.mem_map] using hm2
      rfl
    obtain ⟨m, hm, hkey⟩ := h m2 hm2 hinv
    exact List.mem_map.mpr ⟨m, hm, hkey⟩
  have hnd : (dbC10.messages.map (otherId "A")).Nodup := by decide
  have hlen1 : (dbC10.messages.map (otherId "A")).length = 101 := by
    simp [dbC10]
  have hlen2 : ((get_conversations dbC10 "A").map (otherId "A")).length ≤ 100 := by
    rw [List.length_map, get_conversations]
    exact Nat.le_trans (Nat.le_of_eq (List.length_take 100 _)) (Nat.min_le_left _ _)
  have := (hnd.subperm hsub).length_le
  omega

/-- The spec's three-message scenario: A→B at t1, B→A at t2, B→C at t3. -/
def msgAB : MessageDoc := ⟨"m1", "a", "b", "hi", "2024-01-01T00:00:01"⟩
def msgBA : MessageDoc := ⟨"m2", "b", "a", "yo", "2024-01-01T00:00:02"⟩
def msgBC : MessageDoc := ⟨"m3", "b", "c", "ok", "2024-01-01T00:00:03"⟩
def dbMsg : DB := ⟨[], [], [], [msgAB, msgBA, msgBC], []⟩

/-- C10 witness: the conversation listing of user a over the
three-message store. -/
theorem conversations_spec_witness :
    (∀ m ∈ get_conversations dbMsg "a", m ∈ dbMsg.messages ∧ involvedB "a" m = true) ∧
    (∀ m ∈ get_conversations dbMsg "a", ∀ m2 ∈ dbMsg.messages,
      involvedB "a" m2 = true → otherId "a" m2 = otherId "a" m →
      m2.created_at ≤ m.created_at) ∧
    (∀ m2 ∈ dbMsg.messages, involvedB "a" m2 = true →
      ∃ m ∈ get_conversations dbMsg "a", otherId "a" m = otherId "a" m2) ∧
    (∀ m ∈ get_conversations dbMsg "a", ∀ m2 ∈ get_conversations dbMsg "a",
      otherId "a" m = otherId "a" m2 → m = m2) :=
  conversations_spec dbMsg "a" (by decide)

end Mapmoments
